import Mathlib

/-!
# Verification of the Simargl channel registry core

A shallow embedding of `src/channel_registry/` (`utils.py`, `models.py`,
`registry.py`, `refresh_service.py`, `manager.py`).

Modelling conventions:
* Python `str` is modelled as `List Char` (`Str`); `None`-able strings as
  `Option Str`.  Python truthiness of a string is "non-empty".
* `str.strip()` / `str.lower()` / `str.lstrip("@")` are modelled character
  by character (`pyStrip`, `pyLower`, `pyLStripAt`); ASCII case folding is
  used, matching the data the registry handles.
* The registry's `Dict[str, ChannelRecord]` is an insertion-ordered
  association list (`Store`), mirroring Python dict semantics: updating an
  existing key keeps its position, a new key is appended, and both
  `.values()` iteration (the resolve scan) and JSON dumping follow that
  order.
* `datetime.utcnow()` is an explicit `now : Nat` argument; `timedelta`
  arithmetic becomes addition on `Nat` timestamps (the TTL is passed in the
  same unit).
* The YouTube Data API call inside `ChannelRefreshService` is an explicit
  parameter (`CallOutcome`): it either raises `HttpError` (which the code
  catches) or returns a response whose `items` list we pass through.
  File persistence keeps only what the code round-trips: `_persist` dumps
  the records in store order and `_load` re-keys them by `channel_id`.
* `urlparse` is modelled for the shapes the registry feeds it
  (`scheme://netloc/path`, scheme-less strings): the `netloc` is the part
  between `"://"` (or a leading `"//"`) and the next `/`, the `path` is the
  rest; strings without a netloc marker have an empty netloc and are their
  own path.  Query/fragment splitting is not needed by this code path.
-/

set_option maxHeartbeats 1000000

namespace Simargl

/-- Python `str` as a list of characters. -/
abbrev Str := List Char

/-- Whitespace test used by Python's default `str.strip()`. -/
def isWS (c : Char) : Bool := c.isWhitespace

/-- `str.lower()` (ASCII case folding). -/
def pyLower (s : Str) : Str := s.map Char.toLower

/-- Leading-whitespace strip. -/
def pyStripLeft (s : Str) : Str := s.dropWhile isWS

/-- Trailing-whitespace strip. -/
def pyStripRight (s : Str) : Str := (s.reverse.dropWhile isWS).reverse

/-- Python `str.strip()`. -/
def pyStrip (s : Str) : Str := pyStripRight (pyStripLeft s)

/-- Python `str.lstrip("@")`. -/
def pyLStripAt (s : Str) : Str := s.dropWhile (· = '@')

/-- Strip a given character from both ends (`str.strip("/")`). -/
def pyStripChar (c : Char) (s : Str) : Str :=
  ((s.dropWhile (· = c)).reverse.dropWhile (· = c)).reverse

/-- Python truthiness of an optional string: `None` and `""` are falsy. -/
def strTruthy : Option Str → Bool
  | none => false
  | some s => !s.isEmpty

/-- Python `a or b` for two optional strings. -/
def pyOrStr (a b : Option Str) : Option Str :=
  match a with
  | some s => if s.isEmpty then b else some s
  | none => b

/-- Python `a or b` where `b` is a plain string. -/
def pyOrStrD (a : Option Str) (b : Str) : Str :=
  match a with
  | some s => if s.isEmpty then b else s
  | none => b

/-- Substring test (`needle in haystack`). -/
def containsSub (needle haystack : Str) : Bool :=
  haystack.tails.any (fun t => needle.isPrefixOf t)

/-- The suffix after the first occurrence of `needle`, if any. -/
def afterSub? (needle : Str) : Str → Option Str
  | [] => if needle.isPrefixOf [] then some [] else none
  | c :: rest =>
    if needle.isPrefixOf (c :: rest) then some ((c :: rest).drop needle.length)
    else afterSub? needle rest

/-- `s.split(c, maxsplit=1)[1]`: everything after the first occurrence of `c`. -/
def afterFirst (c : Char) (s : Str) : Str := (s.dropWhile (· ≠ c)).drop 1

/-- `s.split(c)`, keeping empty segments. -/
def splitChar (c : Char) : Str → List Str
  | [] => [[]]
  | x :: rest =>
    let r := splitChar c rest
    if x = c then [] :: r
    else
      match r with
      | [] => [[x]]
      | seg :: segs => (x :: seg) :: segs

/-- `urllib.parse.urlparse` restricted to what the registry consumes:
the `(netloc, path)` pair for `scheme://netloc/path`-shaped and plain
strings (see the module header). -/
def urlNetlocPath (s : Str) : Str × Str :=
  match afterSub? "://".data s with
  | some rest => (rest.takeWhile (· ≠ '/'), rest.dropWhile (· ≠ '/'))
  | none =>
    if "//".data.isPrefixOf s then
      let rest := s.drop 2
      (rest.takeWhile (· ≠ '/'), rest.dropWhile (· ≠ '/'))
    else ([], s)

/-! ## `channel_registry/utils.py` -/

/-- `normalize_handle` (utils.py:8-16): trim, `None` for blank, strip all
leading `@`, prefix exactly one `@`. -/
def normalize_handle : Option Str → Option Str
  | none => none
  | some v =>
    let cleaned := pyStrip v
    if cleaned = [] then none
    else some ('@' :: pyLStripAt cleaned)

/-- Worker of `dedupe_aliases` (utils.py:19-34): `seen` holds the lowercased
trimmed keys emitted so far. -/
def dedupeGo (seen : List Str) : List (Option Str) → List Str
  | [] => []
  | none :: rest => dedupeGo seen rest
  | some s :: rest =>
    if s = [] then dedupeGo seen rest
    else
      let cleaned := pyStrip s
      if cleaned = [] then dedupeGo seen rest
      else
        let key := pyLower cleaned
        if key ∈ seen then dedupeGo seen rest
        else cleaned :: dedupeGo (key :: seen) rest

/-- `dedupe_aliases` (utils.py:19-34). The Python version takes an iterable
that may hold `None` entries (callers pass them), hence `Option Str`. -/
def dedupe_aliases (aliases : List (Option Str)) : List Str :=
  dedupeGo [] aliases

/-! ## `channel_registry/models.py` -/

/-- The `statistics` part of a YouTube `channels().list` item: the API
serialises the counters as strings, which `_safe_int` later parses. -/
structure Statistics where
  subscriberCount : Option Str := none
  videoCount : Option Str := none
  viewCount : Option Str := none
  deriving Repr, DecidableEq

/-- The `snippet` part of a YouTube `channels().list` item (the fields the
refresh service reads). -/
structure Snippet where
  title : Option Str := none
  description : Option Str := none
  customUrl : Option Str := none
  publishedAt : Option Str := none
  deriving Repr, DecidableEq

/-- One item of the YouTube API response (`payload` in refresh_service.py). -/
structure Payload where
  id : Option Str := none
  snippet : Snippet := {}
  statistics : Statistics := {}
  deriving Repr, DecidableEq

/-- The dict `_apply_payload` stores under `metadata.snapshot`
(refresh_service.py:89-96): the raw statistics plus a snippet excerpt. -/
structure Snapshot where
  statistics : Statistics
  snippet_publishedAt : Option Str
  snippet_description : Option Str
  snippet_title : Option Str
  deriving Repr, DecidableEq

/-- `ChannelMetadata` (models.py:11-19). `snapshot` starts as the empty dict
(`none`) and only ever holds the shape `_apply_payload` writes. -/
structure ChannelMetadata where
  subscriber_count : Option Int := none
  video_count : Option Int := none
  view_count : Option Int := none
  latest_video_id : Option Str := none
  last_refreshed_at : Option Nat := none
  snapshot : Option Snapshot := none
  deriving Repr, DecidableEq

/-- `ChannelRecord` (models.py:22-47). -/
structure ChannelRecord where
  channel_id : Str
  handle : Option Str := none
  custom_url : Option Str := none
  title : Option Str := none
  description : Option Str := none
  owner : Option Str := none
  notes : Option Str := none
  tags : List Str := []
  aliases : List Str := []
  file_search_store_name : Option Str := none
  metadata : ChannelMetadata := {}
  uploads_playlist_id : Option Str := none
  created_at : Nat := 0
  updated_at : Nat := 0
  deriving Repr, DecidableEq

instance : Inhabited ChannelMetadata := ⟨{}⟩

instance : Inhabited ChannelRecord := ⟨{ channel_id := [] }⟩

/-- One step of the token accumulation in `ChannelRecord.search_tokens`
(models.py:54-67): skip falsy values, add the stripped lowercase form and
its `lstrip("@")` variant. -/
def searchTokenStep (acc : List Str) (v : Option Str) : List Str :=
  match v with
  | none => acc
  | some s =>
    if s = [] then acc
    else
      let stripped := pyLower (pyStrip s)
      if stripped = [] then acc
      else acc ++ [stripped, pyLStripAt stripped]

/-- `ChannelRecord.search_tokens` (models.py:49-68). The Python code builds
a `set` and sorts it; membership is all the resolver consumes, so a list
with possible duplicates is an equivalent embedding. -/
def ChannelRecord.searchTokens (r : ChannelRecord) : List Str :=
  ([r.handle, r.custom_url, r.title, r.owner] ++ r.aliases.map some).foldl
    searchTokenStep [pyLower r.channel_id]

/-! ## `channel_registry/registry.py` — the record store -/

/-- `ChannelRegistry._records`: an insertion-ordered `Dict[str, ChannelRecord]`. -/
abbrev Store := List (Str × ChannelRecord)

/-- Python dict lookup (`self._records.get(channel_id)`). -/
def lookup : Store → Str → Option ChannelRecord
  | [], _ => none
  | (k', v) :: rest, k => if k' = k then some v else lookup rest k

/-- Python dict assignment `self._records[k] = v`: replace in place if the
key exists, append otherwise. -/
def insertRecord : Store → Str → ChannelRecord → Store
  | [], k, v => [(k, v)]
  | (k', v') :: rest, k, v =>
    if k' = k then (k, v) :: rest else (k', v') :: insertRecord rest k v

/-- `ChannelRegistry._persist` (registry.py:46-51): the JSON document is the
list of records in store (insertion) order. -/
def persistList (s : Store) : List ChannelRecord := s.map (·.2)

/-- `ChannelRegistry._load` (registry.py:27-44): each deserialised record is
keyed by its own `channel_id`. -/
def loadStore (records : List ChannelRecord) : Store :=
  records.foldl (fun s r => insertRecord s r.channel_id r) []

/-- `ChannelRegistry._expand_identifier` (registry.py:132-150). -/
def expandIdentifier (identifier : Str) : List Str :=
  let cleaned := pyLower (pyStrip identifier)
  if cleaned = [] then []
  else
    let t1 := [cleaned]
    let t2 := if cleaned.head? = some '@' then t1 ++ [pyLStripAt cleaned] else t1
    let parsed := urlNetlocPath cleaned
    if parsed.1 = [] then t2
    else
      let path := pyStripChar '/' parsed.2
      let t3 := if path.contains '@' then t2 ++ [afterFirst '@' path] else t2
      if path = [] then t3 else t3 ++ [path]

/-- Nonempty-intersection test for the token sets in `resolve`
(`record_tokens & tokens`). -/
def tokensIntersect (a b : List Str) : Bool :=
  a.any (fun t => b.contains t)

/-- `ChannelRegistry.resolve` (registry.py:89-103), additionally returning
the store key the hit was found under (Python returns the shared record
object; the key is needed to model in-place mutation of that object). -/
def resolveWithKey (store : Store) (identifier : Str) : Option (Str × ChannelRecord) :=
  if identifier = [] then none
  else
    let tokens := expandIdentifier identifier
    match tokens.find? (fun t => "UC".data.isPrefixOf t && (lookup store t).isSome) with
    | some t => (lookup store t).map (fun r => (t, r))
    | none => store.find? (fun e => tokensIntersect e.2.searchTokens tokens)

/-- `ChannelRegistry.resolve` (registry.py:89-103). -/
def resolve (store : Store) (identifier : Str) : Option ChannelRecord :=
  (resolveWithKey store identifier).map (·.2)

/-- `ChannelRegistry._deduce_channel_id` (registry.py:124-130). -/
def deduceChannelId (identifier : Str) : Str :=
  let cleaned := pyStrip identifier
  if "UC".data.isPrefixOf cleaned then cleaned
  else "synthetic::".data ++ pyLower cleaned

/-- `ChannelRegistry._extract_handle` (registry.py:152-161).  When the URL
branch fires it returns `normalize_handle(...)` directly (even if that is
`None`); otherwise control falls through to the `startswith("@")` check. -/
def extractHandle (identifier : Str) : Option Str :=
  let text := pyStrip identifier
  if containsSub "youtube.com".data text
      ∧ ((urlNetlocPath text).2 ≠ [] ∧ (urlNetlocPath text).2.contains '@') then
    normalize_handle (some (afterFirst '@' (urlNetlocPath text).2))
  else if text.head? = some '@' then normalize_handle (some text)
  else none

/-- `ChannelRegistry._extract_custom_slug` (registry.py:163-175). -/
def extractCustomSlug (identifier : Str) : Option Str :=
  let text := pyStrip identifier
  if !containsSub "youtube.com".data text then none
  else
    let parsed := urlNetlocPath text
    let path := pyStripChar '/' parsed.2
    if path = [] then none
    else
      let segments := splitChar '/' path
      let seg0 := pyLower (segments.headD [])
      if (seg0 = "c".data ∨ seg0 = "channel".data) ∧ segments.length > 1 then
        some (segments.getD 1 [])
      else some (segments.getLastD [])

/-- `ChannelRegistry._merge_aliases` (registry.py:177-183). `aliases` may
hold `None` entries (`find_or_create_by_identifier` passes the extracted
handle unchecked). -/
def mergeAliases (record : ChannelRecord) (aliases : List (Option Str))
    (base_identifier : Option Str) : List Str :=
  let base_aliases := record.aliases.map some
  let handle_alias :=
    if strTruthy record.handle then normalize_handle record.handle else none
  dedupe_aliases (base_aliases ++ aliases ++
    [base_identifier, handle_alias, some record.channel_id, record.title])

/-- The keyword arguments accepted by `ChannelRegistry.update_partial` at
its call sites (manager.py passes `owner`, `notes`, `aliases`,
`base_identifier`; the spec's test also passes `title`). -/
structure Changes where
  owner : Option Str := none
  notes : Option Str := none
  aliases : Option (List Str) := none
  title : Option Str := none
  base_identifier : Option Str := none

/-- `ChannelRegistry.update_partial` (registry.py:64-87).  The third result
component records whether `_persist` ran.  `title` and `base_identifier`
are skipped by the `editable_fields` allow-list check of the kwargs loop
(registry.py:68, 77-83); an editable field passed as `None` is skipped by
the `value is None` check (registry.py:80-81). -/
def update_partial (store : Store) (channel_id : Str) (ch : Changes) (now : Nat) :
    Option ChannelRecord × Store × Bool :=
  match lookup store channel_id with
  | none => (none, store, false)
  | some record =>
    let r1 :=
      match ch.aliases with
      | some al =>
        { record with aliases := mergeAliases record (al.map some) ch.base_identifier }
      | none => record
    let r2 := match ch.owner with
      | some v => { r1 with owner := some v }
      | none => r1
    let r3 := match ch.notes with
      | some v => { r2 with notes := some v }
      | none => r2
    let updated := ch.aliases.isSome || ch.owner.isSome || ch.notes.isSome
    if updated then
      let r4 := { r3 with updated_at := now }
      (some r4, insertRecord store channel_id r4, true)
    else (some r3, store, false)

/-- The record-construction half of `find_or_create_by_identifier`
(registry.py:110-122), reached when `resolve` found nothing. -/
def createRecord (store : Store) (identifier : Str) (now : Nat) :
    ChannelRecord × Store :=
  let channel_id := deduceChannelId identifier
  let handle := extractHandle identifier
  let rec0 : ChannelRecord :=
    { channel_id := if channel_id = [] then identifier else channel_id
      handle := handle
      custom_url := extractCustomSlug identifier
      title := none
      created_at := now
      updated_at := now }
  let rec1 :=
    if pyStrip identifier ≠ [] then
      { rec0 with aliases := mergeAliases rec0 [some (pyStrip identifier), handle] none }
    else rec0
  (rec1, insertRecord store rec1.channel_id rec1)

/-- `resolve`-or-create, the shared first step of
`find_or_create_by_identifier` (registry.py:105-109) and
`ChannelRefreshService.refresh` (refresh_service.py:32).  Returns the key
the record lives under together with the record and the (possibly grown)
store. -/
def resolveOrCreate (store : Store) (identifier : Str) (now : Nat) :
    (Str × ChannelRecord) × Store :=
  match resolveWithKey store identifier with
  | some kr => (kr, store)
  | none =>
    let c := createRecord store identifier now
    ((c.1.channel_id, c.1), c.2)

/-- `ChannelRegistry.find_or_create_by_identifier` (registry.py:105-122). -/
def find_or_create_by_identifier (store : Store) (identifier : Str) (now : Nat) :
    ChannelRecord × Store :=
  let rc := resolveOrCreate store identifier now
  (rc.1.2, rc.2)

/-- `ChannelRegistry.upsert` (registry.py:59-62). -/
def upsert (store : Store) (record : ChannelRecord) : Store :=
  insertRecord store record.channel_id record

/-! ## `channel_registry/refresh_service.py` -/

/-- Outcome of the external `service.channels().list(...).execute()` call:
either it raises `googleapiclient.errors.HttpError` (which the service
catches) or it returns a response whose `items` list is given. -/
inductive CallOutcome where
  | httpError
  | ok (items : List Payload)
  deriving Repr, DecidableEq

/-- Python `int(value)` on an optional string, as used by
`ChannelRefreshService._safe_int` (refresh_service.py:127-132): `None`,
empty, or non-numeric input yields `None`. -/
def safeInt (v : Option Str) : Option Int :=
  match v with
  | none => none
  | some s =>
    let t := pyStrip s
    let (sign, digits) : Int × Str :=
      match t with
      | '-' :: rest => (-1, rest)
      | '+' :: rest => (1, rest)
      | _ => (1, t)
    if digits ≠ [] ∧ digits.all Char.isDigit then
      some (sign * Int.ofNat (digits.foldl (fun n c => n * 10 + (c.toNat - 48)) 0))
    else none

/-- `ChannelRefreshService._is_stale` (refresh_service.py:45-50); `ttl` is
`timedelta(hours=self._ttl)` expressed in the timestamp unit. -/
def isStale (r : ChannelRecord) (now ttl : Nat) : Bool :=
  match r.metadata.last_refreshed_at with
  | none => true
  | some t => now ≥ t + ttl

/-- `ChannelRefreshService._fetch_channel_payload`
(refresh_service.py:52-75).  The second component records whether the
external API was actually called: with neither a `UC` id nor a handle the
method returns `None` without any call. -/
def fetchChannelPayload (r : ChannelRecord) (outcome : CallOutcome) :
    Option Payload × Bool :=
  if "UC".data.isPrefixOf r.channel_id ∨ strTruthy r.handle then
    match outcome with
    | .httpError => (none, true)
    | .ok items => (items.head?, true)
  else (none, false)

/-- `ChannelRefreshService._apply_payload` (refresh_service.py:77-99). -/
def applyPayload (r : ChannelRecord) (p : Payload) (now : Nat) : ChannelRecord :=
  let channel_id := pyOrStrD p.id r.channel_id
  let title := pyOrStr p.snippet.title r.title
  let description := pyOrStr p.snippet.description r.description
  let handle := normalize_handle (pyOrStr p.snippet.customUrl r.handle)
  let alias_candidates := [title, handle, some channel_id]
  let aliases := dedupe_aliases
    (r.aliases.map some ++ (alias_candidates.filter strTruthy))
  { r with
    channel_id := channel_id
    title := title
    description := description
    handle := handle
    metadata := { r.metadata with
      subscriber_count := safeInt p.statistics.subscriberCount
      video_count := safeInt p.statistics.videoCount
      view_count := safeInt p.statistics.viewCount
      last_refreshed_at := some now
      snapshot := some
        { statistics := p.statistics
          snippet_publishedAt := p.snippet.publishedAt
          snippet_description := p.snippet.description
          snippet_title := p.snippet.title } }
    aliases := aliases
    updated_at := now }

/-- Result of one `ChannelRefreshService.refresh` call: the returned record,
the registry store afterwards, and whether the external API was called. -/
structure RefreshResult where
  record : ChannelRecord
  store : Store
  fetched : Bool
  deriving Repr, DecidableEq

/-- `ChannelRefreshService.refresh` (refresh_service.py:30-43).  Python
mutates the resolved record object in place and then `upsert`s it, so the
store entry it was found under and the entry at its (possibly new)
`channel_id` both hold the updated record.  `_write_memory_snapshot`
touches only the separate memory subsystem, not the registry. -/
def refresh (store : Store) (identifier : Str) (force : Bool)
    (outcome : CallOutcome) (now ttl : Nat) : RefreshResult :=
  let rc := resolveOrCreate store identifier now
  let key := rc.1.1
  let record := rc.1.2
  let store1 := rc.2
  if !force && !isStale record now ttl then ⟨record, store1, false⟩
  else
    let fp := fetchChannelPayload record outcome
    match fp.1 with
    | none => ⟨record, store1, fp.2⟩
    | some p =>
      let r' := applyPayload record p now
      ⟨r', insertRecord (insertRecord store1 key r') r'.channel_id r', fp.2⟩

/-! ## `channel_registry/manager.py` -/

/-- `ChannelRegistryManager.update_manual_fields` (manager.py:58-76).  The
third result component again records whether a persist happened. -/
def update_manual_fields (store : Store) (identifier : Str)
    (owner notes : Option Str) (aliases : Option (List Str)) (now : Nat) :
    Option ChannelRecord × Store × Bool :=
  match resolve store identifier with
  | none => (none, store, false)
  | some record =>
    let manual_aliases := dedupe_aliases ((aliases.getD []).map some)
    update_partial store record.channel_id
      { owner := owner, notes := notes, aliases := some manual_aliases
        base_identifier := some identifier } now

/-! ## Store well-formedness and concrete scenarios -/

/-- The registry's intended store invariant: every entry is keyed by its
record's `channel_id` (registry.py:44, 60, 120) and keys are unique (they
are dict keys). -/
def WellFormed (s : Store) : Prop :=
  (∀ e ∈ s, e.1 = e.2.channel_id) ∧ (s.map (·.1)).Nodup

/-- Scenario for claim C1: a record that merely carries the canonical ID
`UCabc` as an alias, inserted before the record whose `channel_id` is
`UCabc`. -/
def recAlias : ChannelRecord :=
  { channel_id := "synthetic::other".data, aliases := ["UCabc".data] }

/-- Scenario for claim C1: the record actually stored under the canonical
key `UCabc`. -/
def recCanon : ChannelRecord := { channel_id := "UCabc".data }

/-- Scenario for claim C1: the two-record store. -/
def storeC1 : Store :=
  insertRecord (insertRecord [] recAlias.channel_id recAlias) recCanon.channel_id recCanon

/-- Scenario for claim C2: the store reached from the empty store by
`find_or_create_by_identifier("@foo")` — one synthetic placeholder record
that has a handle to query by. -/
def storeC2 : Store := (find_or_create_by_identifier [] "@foo".data 10).2

/-- Scenario for claim C2: a fetch payload carrying the real channel ID. -/
def payloadC2 : Payload :=
  { id := some "UCreal".data, snippet := { title := some "Foo Channel".data } }

/-- Scenario for claim C2: the refresh that discovers the real `UC` ID for
the placeholder. -/
def refreshC2 : RefreshResult := refresh storeC2 "@foo".data true (.ok [payloadC2]) 50 720

/-- Scenario for claim C5: a record whose only token matching `"foo"` is its
title. -/
def recTitled : ChannelRecord := { channel_id := "UCx".data, title := some "foo".data }

/-- Scenario for claim C5: the store holding only that record. -/
def storeC5 : Store := [("UCx".data, recTitled)]

/-- Scenario for claim C5: a payload that overwrites the title. -/
def payloadC5 : Payload :=
  { id := some "UCx".data, snippet := { title := some "Bar".data } }

/-- Scenario for claim C5: the first refresh call, at time 100 with TTL 720. -/
def refreshC5a : RefreshResult := refresh storeC5 "foo".data false (.ok [payloadC5]) 100 720

/-- Scenario for claim C5: the second refresh call, at time 150 (inside the
TTL window opened by the first call). -/
def refreshC5b : RefreshResult :=
  refresh refreshC5a.store "foo".data false (.ok [payloadC5]) 150 720

/-- Scenario for claim C6 (mirrors `test_update_partial_only_manual_fields`):
an existing record with a title. -/
def recW : ChannelRecord :=
  { channel_id := "UC789".data, handle := some "@example".data
    title := some "Original".data }

/-- Scenario for claim C6: the store holding `recW`. -/
def storeW : Store := [("UC789".data, recW)]

/-- Scenario for claim C6: changes carrying an editable field (`owner`) and a
non-editable one (`title`). -/
def chW : Changes :=
  { owner := some "Owner Name".data, title := some "Should Not Change".data }

/-- Scenario for claim C7 (mirrors `test_alias_merge_dedupes_case_insensitive`):
a record whose existing alias is `"@Example"`. -/
def recC7 : ChannelRecord :=
  { channel_id := "UC555".data, aliases := ["@Example".data] }

/-- Scenario for claim C7: the new alias candidates being merged. -/
def alsC7 : List (Option Str) :=
  [some "example".data, some "@example".data, some "Example ".data]

/-- Scenario for claims C5/C10: a record already refreshed at time 100. -/
def recFresh : ChannelRecord :=
  { channel_id := "UCf".data, title := some "Fresh".data
    metadata := { last_refreshed_at := some 100 } }

/-- Scenario for claims C5/C10: the store holding `recFresh`. -/
def storeFresh : Store := [("UCf".data, recFresh)]

/-! ## Helper lemmas: characters and strings -/

theorem dropWhile_head_false {p : Char → Bool} {l : Str} {a : Char} {t : Str}
    (h : l.dropWhile p = a :: t) : p a = false := by
  induction l with
  | nil => simp at h
  | cons x xs ih =>
    by_cases hx : p x
    · rw [List.dropWhile_cons_of_pos hx] at h
      exact ih h
    · rw [List.dropWhile_cons_of_neg hx] at h
      cases h
      simpa using hx

theorem dropWhile_idem {p : Char → Bool} (l : Str) :
    (l.dropWhile p).dropWhile p = l.dropWhile p := by
  cases h : l.dropWhile p with
  | nil => rfl
  | cons a t =>
    have := dropWhile_head_false h
    rw [List.dropWhile_cons_of_neg (by simp [this])]

theorem pyStripRightPre (s : Str) : pyStripRight s <+: s := by
  have h1 : s.reverse.dropWhile isWS <:+ s.reverse := List.dropWhile_suffix isWS
  have h2 := List.reverse_prefix.mpr h1
  simpa [pyStripRight] using h2

theorem pyStrip_head_false {s : Str} {c : Char} {t : Str}
    (h : pyStrip s = c :: t) : isWS c = false := by
  have hp : pyStrip s <+: pyStripLeft s := pyStripRightPre (pyStripLeft s)
  rw [h] at hp
  obtain ⟨u, hu⟩ := hp
  have : pyStripLeft s = c :: (t ++ u) := by rw [← hu]; rfl
  exact dropWhile_head_false this

theorem pyStrip_reverse_eq (s : Str) :
    (pyStrip s).reverse = (pyStripLeft s).reverse.dropWhile isWS := by
  simp [pyStrip, pyStripRight]

theorem pyStrip_last_false {s : Str} {c : Char} {t : Str}
    (h : (pyStrip s).reverse = c :: t) : isWS c = false := by
  rw [pyStrip_reverse_eq] at h
  exact dropWhile_head_false h

theorem pyStrip_eq_self {s : Str}
    (h1 : ∀ c ∈ s.head?, isWS c = false)
    (h2 : ∀ c ∈ s.reverse.head?, isWS c = false) : pyStrip s = s := by
  cases s with
  | nil => rfl
  | cons a t =>
    have ha : isWS a = false := h1 a rfl
    have hl : pyStripLeft (a :: t) = a :: t := by
      unfold pyStripLeft
      rw [List.dropWhile_cons_of_neg (by simp [ha])]
    rw [pyStrip, hl]
    cases hr : (a :: t).reverse with
    | nil => simp at hr
    | cons b rb =>
      have hb : isWS b = false := h2 b (by rw [hr]; rfl)
      rw [pyStripRight, hr, List.dropWhile_cons_of_neg (by simp [hb]), ← hr,
        List.reverse_reverse]

theorem pyStrip_idem (s : Str) : pyStrip (pyStrip s) = pyStrip s := by
  apply pyStrip_eq_self
  · intro c hc
    cases h : pyStrip s with
    | nil => rw [h] at hc; simp at hc
    | cons a t =>
      rw [h] at hc
      cases hc
      exact pyStrip_head_false h
  · intro c hc
    cases h : (pyStrip s).reverse with
    | nil => rw [h] at hc; simp at hc
    | cons a t =>
      rw [h] at hc
      cases hc
      exact pyStrip_last_false h

theorem pyStrip_nil : pyStrip ([] : Str) = [] := rfl

theorem ne_nil_of_pyStrip_ne_nil {s : Str} (h : pyStrip s ≠ []) : s ≠ [] := by
  intro hs
  exact h (by rw [hs]; rfl)

theorem char_toNat_ofNat_valid (n : Nat) (h : n.isValidChar) :
    (Char.ofNat n).toNat = n := by
  simp only [Char.ofNat, dif_pos h, Char.ofNatAux, Char.toNat, UInt32.toNat]
  rfl

theorem toLower_ne_U (c : Char) : Char.toLower c ≠ 'U' := by
  intro hc
  have h85 : ('U' : Char).toNat = 85 := by decide
  unfold Char.toLower at hc
  simp only [ge_iff_le] at hc
  by_cases h : 65 ≤ c.toNat ∧ c.toNat ≤ 90
  · rw [if_pos h] at hc
    have hv : (Char.toNat c + 32).isValidChar := by
      constructor
      omega
    have := char_toNat_ofNat_valid (Char.toNat c + 32) hv
    rw [hc] at this
    omega
  · rw [if_neg h] at hc
    rw [hc] at h
    simp [h85] at h

theorem not_U_mem_pyLower (s : Str) : 'U' ∉ pyLower s := by
  intro h
  obtain ⟨c, _, hc⟩ := List.mem_map.mp h
  exact toLower_ne_U c hc

/-! ## Helper lemmas: `normalize_handle` -/

theorem normalize_handle_blank {s : Str} (h : pyStrip s = []) :
    normalize_handle (some s) = none := by
  simp [normalize_handle, h]

theorem normalize_handle_shape {s : Str} (h : pyStrip s ≠ []) :
    normalize_handle (some s) = some ('@' :: pyLStripAt (pyStrip s)) := by
  simp [normalize_handle, h]

theorem pyStrip_at_cons {s : Str} :
    pyStrip ('@' :: pyLStripAt (pyStrip s)) = '@' :: pyLStripAt (pyStrip s) := by
  apply pyStrip_eq_self
  · intro d hd
    cases hd
    decide
  · intro d hd
    cases hy : pyLStripAt (pyStrip s) with
    | nil =>
      rw [hy] at hd
      cases hd
      decide
    | cons e et =>
      rw [hy] at hd
      have hyrev : ('@' :: (e :: et)).reverse = (e :: et).reverse ++ ['@'] := by
        simp
      rw [hyrev] at hd
      have hsuf : pyLStripAt (pyStrip s) <:+ pyStrip s := List.dropWhile_suffix _
      obtain ⟨u, hu⟩ := hsuf
      have hcrev : (pyStrip s).reverse = (e :: et).reverse ++ u.reverse := by
        rw [← hu, hy]
        simp
      cases her : (e :: et).reverse with
      | nil => simp at her
      | cons f ft =>
        rw [her] at hd
        simp at hd
        subst hd
        apply pyStrip_last_false (s := s)
        rw [hcrev, her]
        rfl

theorem pyLStripAt_idem_cons {s : Str} :
    pyLStripAt ('@' :: pyLStripAt (pyStrip s)) = pyLStripAt (pyStrip s) := by
  unfold pyLStripAt
  rw [List.dropWhile_cons_of_pos (by simp)]
  exact dropWhile_idem (pyStrip s)

theorem normalize_handle_idem (v : Option Str) :
    normalize_handle (normalize_handle v) = normalize_handle v := by
  cases v with
  | none => rfl
  | some s =>
    by_cases hc : pyStrip s = []
    · rw [normalize_handle_blank hc]
      rfl
    · rw [normalize_handle_shape hc]
      rw [normalize_handle_shape (s := '@' :: pyLStripAt (pyStrip s))
        (by rw [pyStrip_at_cons]; simp)]
      rw [pyStrip_at_cons, pyLStripAt_idem_cons]

/-! ## Helper lemmas: `dedupe_aliases` -/

theorem dedupeGo_trimmed :
    ∀ (l : List (Option Str)) (seen : List Str) (a : Str),
      a ∈ dedupeGo seen l → a = pyStrip a ∧ a ≠ [] := by
  intro l
  induction l with
  | nil => intro seen a ha; simp [dedupeGo] at ha
  | cons o rest ih =>
    intro seen a ha
    cases o with
    | none => exact ih seen a ha
    | some s =>
      by_cases hs : s = []
      · rw [show dedupeGo seen (some s :: rest) = dedupeGo seen rest by
          simp [dedupeGo, hs]] at ha
        exact ih seen a ha
      · by_cases hc : pyStrip s = []
        · rw [show dedupeGo seen (some s :: rest) = dedupeGo seen rest by
            simp [dedupeGo, hs, hc]] at ha
          exact ih seen a ha
        · by_cases hk : pyLower (pyStrip s) ∈ seen
          · rw [show dedupeGo seen (some s :: rest) = dedupeGo seen rest by
              simp [dedupeGo, hs, hc, hk]] at ha
            exact ih seen a ha
          · rw [show dedupeGo seen (some s :: rest) =
                pyStrip s :: dedupeGo (pyLower (pyStrip s) :: seen) rest by
              simp [dedupeGo, hs, hc, hk]] at ha
            rcases List.mem_cons.mp ha with h | h
            · subst h
              exact ⟨(pyStrip_idem s).symm, hc⟩
            · exact ih _ a h

theorem dedupeGo_pairwise :
    ∀ (l : List (Option Str)) (seen : List Str),
      (dedupeGo seen l).Pairwise (fun a b => pyLower a ≠ pyLower b) ∧
      ∀ a ∈ dedupeGo seen l, pyLower a ∉ seen := by
  intro l
  induction l with
  | nil => intro seen; simp [dedupeGo]
  | cons o rest ih =>
    intro seen
    cases o with
    | none => exact ih seen
    | some s =>
      by_cases hs : s = []
      · rw [show dedupeGo seen (some s :: rest) = dedupeGo seen rest by
          simp [dedupeGo, hs]]
        exact ih seen
      · by_cases hc : pyStrip s = []
        · rw [show dedupeGo seen (some s :: rest) = dedupeGo seen rest by
            simp [dedupeGo, hs, hc]]
          exact ih seen
        · by_cases hk : pyLower (pyStrip s) ∈ seen
          · rw [show dedupeGo seen (some s :: rest) = dedupeGo seen rest by
              simp [dedupeGo, hs, hc, hk]]
            exact ih seen
          · rw [show dedupeGo seen (some s :: rest) =
                pyStrip s :: dedupeGo (pyLower (pyStrip s) :: seen) rest by
              simp [dedupeGo, hs, hc, hk]]
            obtain ⟨ihp, ihm⟩ := ih (pyLower (pyStrip s) :: seen)
            constructor
            · apply List.Pairwise.cons
              · intro b hb
                have := ihm b hb
                intro he
                exact this (by rw [← he]; exact List.mem_cons_self _ _)
              · exact ihp
            · intro a ha
              rcases List.mem_cons.mp ha with h | h
              · subst h
                exact hk
              · intro hmem
                exact ihm a h (List.mem_cons_of_mem _ hmem)

theorem dedupeGo_sublist :
    ∀ (l : List (Option Str)) (seen : List Str),
      (dedupeGo seen l).Sublist (l.filterMap (fun o => o.map pyStrip)) := by
  intro l
  induction l with
  | nil => intro seen; simp [dedupeGo]
  | cons o rest ih =>
    intro seen
    cases o with
    | none => simpa using ih seen
    | some s =>
      by_cases hs : s = []
      · rw [show dedupeGo seen (some s :: rest) = dedupeGo seen rest by
          simp [dedupeGo, hs]]
        simp only [List.filterMap_cons, Option.map_some]
        exact (ih seen).cons _
      · by_cases hc : pyStrip s = []
        · rw [show dedupeGo seen (some s :: rest) = dedupeGo seen rest by
            simp [dedupeGo, hs, hc]]
          simp only [List.filterMap_cons, Option.map_some]
          exact (ih seen).cons _
        · by_cases hk : pyLower (pyStrip s) ∈ seen
          · rw [show dedupeGo seen (some s :: rest) = dedupeGo seen rest by
              simp [dedupeGo, hs, hc, hk]]
            simp only [List.filterMap_cons, Option.map_some]
            exact (ih seen).cons _
          · rw [show dedupeGo seen (some s :: rest) =
                pyStrip s :: dedupeGo (pyLower (pyStrip s) :: seen) rest by
              simp [dedupeGo, hs, hc, hk]]
            simp only [List.filterMap_cons, Option.map_some]
            exact (ih _).cons₂ _

theorem dedupeGo_complete :
    ∀ (l : List (Option Str)) (seen : List Str) (x : Str),
      some x ∈ l → pyStrip x ≠ [] → pyLower (pyStrip x) ∉ seen →
      ∃ a ∈ dedupeGo seen l, pyLower a = pyLower (pyStrip x) := by
  intro l
  induction l with
  | nil => intro seen x hx; simp at hx
  | cons o rest ih =>
    intro seen x hx hxs hxseen
    cases o with
    | none =>
      have hx' : some x ∈ rest := by
        rcases List.mem_cons.mp hx with h | h
        · exact absurd h (by simp)
        · exact h
      exact ih seen x hx' hxs hxseen
    | some s =>
      by_cases hs : s = []
      · rw [show dedupeGo seen (some s :: rest) = dedupeGo seen rest by
          simp [dedupeGo, hs]]
        have hx' : some x ∈ rest := by
          rcases List.mem_cons.mp hx with h | h
          · cases h
            subst hs
            exact absurd rfl hxs
          · exact h
        exact ih seen x hx' hxs hxseen
      · by_cases hc : pyStrip s = []
        · rw [show dedupeGo seen (some s :: rest) = dedupeGo seen rest by
            simp [dedupeGo, hs, hc]]
          have hx' : some x ∈ rest := by
            rcases List.mem_cons.mp hx with h | h
            · cases h
              exact absurd hc hxs
            · exact h
          exact ih seen x hx' hxs hxseen
        · by_cases hk : pyLower (pyStrip s) ∈ seen
          · rw [show dedupeGo seen (some s :: rest) = dedupeGo seen rest by
              simp [dedupeGo, hs, hc, hk]]
            have hx' : some x ∈ rest := by
              rcases List.mem_cons.mp hx with h | h
              · cases h
                exact absurd hk hxseen
              · exact h
            exact ih seen x hx' hxs hxseen
          · rw [show dedupeGo seen (some s :: rest) =
                pyStrip s :: dedupeGo (pyLower (pyStrip s) :: seen) rest by
              simp [dedupeGo, hs, hc, hk]]
            by_cases hxk : pyLower (pyStrip x) = pyLower (pyStrip s)
            · exact ⟨pyStrip s, List.mem_cons_self _ _, hxk.symm⟩
            · have hx' : some x ∈ rest := by
                rcases List.mem_cons.mp hx with h | h
                · cases h
                  exact absurd rfl hxk
                · exact h
              obtain ⟨a, ha, hae⟩ := ih (pyLower (pyStrip s) :: seen) x hx' hxs
                (by
                  intro hmem
                  rcases List.mem_cons.mp hmem with h | h
                  · exact hxk h
                  · exact hxseen h)
              exact ⟨a, List.mem_cons_of_mem _ ha, hae⟩

theorem dedupeGo_first_seen :
    ∀ (l1 : List (Option Str)) (x : Str) (l2 : List (Option Str)) (seen : List Str),
      pyStrip x ≠ [] → pyLower (pyStrip x) ∉ seen →
      (∀ y, some y ∈ l1 → pyLower (pyStrip y) ≠ pyLower (pyStrip x)) →
      pyStrip x ∈ dedupeGo seen (l1 ++ some x :: l2) := by
  intro l1
  induction l1 with
  | nil =>
    intro x l2 seen hx hseen _
    have hxe : x ≠ [] := by
      intro h
      exact hx (by rw [h]; rfl)
    rw [show dedupeGo seen ([] ++ some x :: l2) =
        pyStrip x :: dedupeGo (pyLower (pyStrip x) :: seen) l2 by
      simp [dedupeGo, hxe, hx, hseen]]
    exact List.mem_cons_self _ _
  | cons o l1' ih =>
    intro x l2 seen hx hseen hfirst
    cases o with
    | none =>
      rw [show dedupeGo seen ((none :: l1') ++ some x :: l2) =
          dedupeGo seen (l1' ++ some x :: l2) by simp [dedupeGo]]
      exact ih x l2 seen hx hseen (fun y hy => hfirst y (List.mem_cons_of_mem _ hy))
    | some s =>
      have hfirst' : ∀ y, some y ∈ l1' → pyLower (pyStrip y) ≠ pyLower (pyStrip x) :=
        fun y hy => hfirst y (List.mem_cons_of_mem _ hy)
      by_cases hs : s = []
      · rw [show dedupeGo seen ((some s :: l1') ++ some x :: l2) =
            dedupeGo seen (l1' ++ some x :: l2) by simp [dedupeGo, hs]]
        exact ih x l2 seen hx hseen hfirst'
      · by_cases hc : pyStrip s = []
        · rw [show dedupeGo seen ((some s :: l1') ++ some x :: l2) =
              dedupeGo seen (l1' ++ some x :: l2) by simp [dedupeGo, hs, hc]]
          exact ih x l2 seen hx hseen hfirst'
        · by_cases hk : pyLower (pyStrip s) ∈ seen
          · rw [show dedupeGo seen ((some s :: l1') ++ some x :: l2) =
                dedupeGo seen (l1' ++ some x :: l2) by simp [dedupeGo, hs, hc, hk]]
            exact ih x l2 seen hx hseen hfirst'
          · rw [show dedupeGo seen ((some s :: l1') ++ some x :: l2) =
                pyStrip s :: dedupeGo (pyLower (pyStrip s) :: seen) (l1' ++ some x :: l2) by
              simp [dedupeGo, hs, hc, hk]]
            apply List.mem_cons_of_mem
            apply ih x l2 _ hx _ hfirst'
            intro hmem
            rcases List.mem_cons.mp hmem with h | h
            · exact hfirst s (List.mem_cons_self _ _) h.symm
            · exact hseen h

/-! ## Helper lemmas: the store -/

theorem insertRecord_of_not_mem {s : Store} {k : Str} (v : ChannelRecord)
    (h : k ∉ s.map (·.1)) : insertRecord s k v = s ++ [(k, v)] := by
  induction s with
  | nil => rfl
  | cons e rest ih =>
    have hk : e.1 ≠ k := by
      intro he
      exact h (by simp [he])
    obtain ⟨k', v'⟩ := e
    rw [show insertRecord ((k', v') :: rest) k v = (k', v') :: insertRecord rest k v by
      simp [insertRecord, hk]]
    rw [ih (fun hm => h (by simp [hm]))]
    rfl

theorem keys_insertRecord (s : Store) (k : Str) (v : ChannelRecord) :
    (insertRecord s k v).map (·.1) =
      if k ∈ s.map (·.1) then s.map (·.1) else s.map (·.1) ++ [k] := by
  induction s with
  | nil => rfl
  | cons e rest ih =>
    obtain ⟨k', v'⟩ := e
    by_cases hk : k' = k
    · subst hk
      rw [show insertRecord ((k', v') :: rest) k' v = (k', v) :: rest by
        simp [insertRecord]]
      simp
    · rw [show insertRecord ((k', v') :: rest) k v = (k', v') :: insertRecord rest k v by
        simp [insertRecord, hk]]
      simp only [List.map_cons, ih]
      by_cases hm : k ∈ rest.map (·.1)
      · rw [if_pos hm, if_pos (by simp [hm])]
      · rw [if_neg hm, if_neg (by simp [hm, Ne.symm hk])]
        rfl

theorem mem_insertRecord {s : Store} {k : Str} {v : ChannelRecord} {e : Str × ChannelRecord}
    (h : e ∈ insertRecord s k v) : e = (k, v) ∨ e ∈ s := by
  induction s with
  | nil => simpa [insertRecord] using h
  | cons e' rest ih =>
    obtain ⟨k', v'⟩ := e'
    by_cases hk : k' = k
    · subst hk
      rw [show insertRecord ((k', v') :: rest) k' v = (k', v) :: rest by
        simp [insertRecord]] at h
      rcases List.mem_cons.mp h with h | h
      · exact Or.inl h
      · exact Or.inr (List.mem_cons_of_mem _ h)
    · rw [show insertRecord ((k', v') :: rest) k v = (k', v') :: insertRecord rest k v by
        simp [insertRecord, hk]] at h
      rcases List.mem_cons.mp h with h | h
      · exact Or.inr (by simp [h])
      · rcases ih h with h | h
        · exact Or.inl h
        · exact Or.inr (List.mem_cons_of_mem _ h)

theorem wellFormed_insertRecord {s : Store} {v : ChannelRecord}
    (h : WellFormed s) : WellFormed (insertRecord s v.channel_id v) := by
  obtain ⟨hkeys, hnodup⟩ := h
  constructor
  · intro e he
    rcases mem_insertRecord he with h | h
    · subst h
      rfl
    · exact hkeys e h
  · rw [keys_insertRecord]
    by_cases hm : v.channel_id ∈ s.map (·.1)
    · rwa [if_pos hm]
    · rw [if_neg hm]
      exact List.Nodup.append hnodup (List.nodup_singleton _)
        (by simpa [List.disjoint_singleton] using hm)

theorem lookup_eq_some_of_mem {s : Store} {k : Str} {v : ChannelRecord}
    (hwf : WellFormed s) (hm : (k, v) ∈ s) : lookup s k = some v := by
  obtain ⟨hkeys, hnodup⟩ := hwf
  clear hkeys
  induction s with
  | nil => simp at hm
  | cons e rest ih =>
    obtain ⟨k', v'⟩ := e
    rcases List.mem_cons.mp hm with h | h
    · cases h
      simp [lookup]
    · have hk : k' ≠ k := by
        intro he
        subst he
        have : k' ∈ rest.map (·.1) := by
          exact List.mem_map.mpr ⟨(k', v), h, rfl⟩
        simp only [List.map_cons, List.nodup_cons] at hnodup
        exact hnodup.1 this
      rw [show lookup ((k', v') :: rest) k = lookup rest k by simp [lookup, hk]]
      have hrest : (rest.map (·.1)).Nodup := by
        simp only [List.map_cons, List.nodup_cons] at hnodup
        exact hnodup.2
      exact ih h hrest

theorem mem_of_lookup_eq_some {s : Store} {k : Str} {v : ChannelRecord}
    (h : lookup s k = some v) : (k, v) ∈ s := by
  induction s with
  | nil => simp [lookup] at h
  | cons e rest ih =>
    obtain ⟨k', v'⟩ := e
    by_cases hk : k' = k
    · subst hk
      rw [show lookup ((k', v') :: rest) k' = some v' by simp [lookup]] at h
      cases h
      exact List.mem_cons_self _ _
    · rw [show lookup ((k', v') :: rest) k = lookup rest k by simp [lookup, hk]] at h
      exact List.mem_cons_of_mem _ (ih h)

theorem find?_insertRecord {s : Store} {k : Str} {v : ChannelRecord}
    {p : Str × ChannelRecord → Bool}
    (hall : ∀ e ∈ s, p e = false) (hp : p (k, v) = true) :
    (insertRecord s k v).find? p = some (k, v) := by
  induction s with
  | nil => simp [insertRecord, List.find?, hp]
  | cons e rest ih =>
    obtain ⟨k', v'⟩ := e
    by_cases hk : k' = k
    · subst hk
      rw [show insertRecord ((k', v') :: rest) k' v = (k', v) :: rest by
        simp [insertRecord]]
      simp [List.find?, hp]
    · rw [show insertRecord ((k', v') :: rest) k v = (k', v') :: insertRecord rest k v by
        simp [insertRecord, hk]]
      have he : p (k', v') = false := hall _ (List.mem_cons_self _ _)
      simp only [List.find?, he]
      exact ih (fun e hm => hall e (List.mem_cons_of_mem _ hm))

theorem loadStore_foldl (s : Store) :
    ∀ acc : Store,
      ((acc.map (·.1) ++ s.map (·.1)).Nodup) →
      (∀ e ∈ s, e.1 = e.2.channel_id) →
      (s.map (·.2)).foldl (fun st r => insertRecord st r.channel_id r) acc = acc ++ s := by
  induction s with
  | nil => intro acc _ _; simp
  | cons e rest ih =>
    intro acc hnodup hkeys
    obtain ⟨k, v⟩ := e
    have hk : k = v.channel_id := hkeys (k, v) (List.mem_cons_self _ _)
    have hknotacc : k ∉ acc.map (·.1) := by
      intro hm
      have : ¬ (k ∈ List.map (·.1) ((k, v) :: rest)) := by
        have := (List.nodup_append.mp hnodup).2.2
        intro hmem
        exact this hm hmem
      exact this (by simp)
    simp only [List.map_cons, List.foldl_cons]
    rw [← hk, insertRecord_of_not_mem v hknotacc]
    have := ih (acc ++ [(k, v)])
      (by simpa using hnodup)
      (fun e he => hkeys e (List.mem_cons_of_mem _ he))
    rw [this]
    simp

theorem loadStore_persistList {s : Store} (h : WellFormed s) :
    loadStore (persistList s) = s := by
  obtain ⟨hkeys, hnodup⟩ := h
  have := loadStore_foldl s [] (by simpa using hnodup) hkeys
  simpa [loadStore, persistList] using this

/-! ## Helper lemmas: identifier expansion and resolution -/

theorem afterSub?_sublist {n s r : Str} (h : afterSub? n s = some r) :
    r.Sublist s := by
  induction s with
  | nil =>
    unfold afterSub? at h
    split at h
    · cases h
      exact List.Sublist.refl _
    · cases h
  | cons c rest ih =>
    unfold afterSub? at h
    split at h
    · cases h
      exact List.drop_sublist _ _
    · exact (ih h).cons c

theorem urlPath_sublist (s : Str) : ((urlNetlocPath s).2).Sublist s := by
  unfold urlNetlocPath
  cases h : afterSub? "://".data s with
  | some rest =>
    exact ((List.dropWhile_suffix _).sublist).trans (afterSub?_sublist h)
  | none =>
    by_cases hp : "//".data.isPrefixOf s
    · simp only [hp, if_true]
      exact ((List.dropWhile_suffix _).sublist).trans (List.drop_sublist _ _)
    · simp only [hp, if_false]
      exact List.Sublist.refl _

theorem pyStripChar_sublist (c : Char) (s : Str) : (pyStripChar c s).Sublist s := by
  have h1 : (s.dropWhile (· = c)).Sublist s := (List.dropWhile_suffix _).sublist
  have h2 : ((s.dropWhile (· = c)).reverse.dropWhile (· = c)).Sublist
      (s.dropWhile (· = c)).reverse := (List.dropWhile_suffix _).sublist
  have h3 := List.reverse_sublist.mpr h2
  rw [List.reverse_reverse] at h3
  exact h3.trans h1

theorem afterFirst_sublist (c : Char) (s : Str) : (afterFirst c s).Sublist s := by
  exact (List.drop_sublist _ _).trans ((List.dropWhile_suffix _).sublist)

theorem expand_cases {identifier t : Str} (h : t ∈ expandIdentifier identifier) :
    t = pyLower (pyStrip identifier) ∨
    t = pyLStripAt (pyLower (pyStrip identifier)) ∨
    t = afterFirst '@'
      (pyStripChar '/' (urlNetlocPath (pyLower (pyStrip identifier))).2) ∨
    t = pyStripChar '/' (urlNetlocPath (pyLower (pyStrip identifier))).2 := by
  by_cases h0 : pyLower (pyStrip identifier) = []
  · simp [expandIdentifier, h0] at h
  · by_cases hh : (pyLower (pyStrip identifier)).head? = some '@' <;>
    by_cases hn : (urlNetlocPath (pyLower (pyStrip identifier))).1 = [] <;>
    by_cases hp :
      pyStripChar '/' (urlNetlocPath (pyLower (pyStrip identifier))).2 = [] <;>
    by_cases ha :
      '@' ∈ pyStripChar '/' (urlNetlocPath (pyLower (pyStrip identifier))).2 <;>
    simp [expandIdentifier, h0, hh, hn, hp, ha] at h <;> tauto

theorem expand_sublist {identifier t : Str} (h : t ∈ expandIdentifier identifier) :
    t.Sublist (pyLower (pyStrip identifier)) := by
  rcases expand_cases h with h | h | h | h <;> subst h
  · exact List.Sublist.refl _
  · exact (List.dropWhile_suffix _).sublist
  · exact ((afterFirst_sublist _ _).trans (pyStripChar_sublist _ _)).trans
      (urlPath_sublist _)
  · exact (pyStripChar_sublist _ _).trans (urlPath_sublist _)

theorem expand_no_UC {identifier t : Str} (h : t ∈ expandIdentifier identifier) :
    ("UC".data.isPrefixOf t) = false := by
  by_contra hne
  have hpre : "UC".data <+: t :=
    List.isPrefixOf_iff_prefix.mp (by simpa using hne)
  have hU : 'U' ∈ t := hpre.sublist.subset (by decide)
  have := (expand_sublist h).subset hU
  exact not_U_mem_pyLower _ this

theorem cleaned_mem_expand {identifier : Str}
    (h : pyLower (pyStrip identifier) ≠ []) :
    pyLower (pyStrip identifier) ∈ expandIdentifier identifier := by
  by_cases hh : (pyLower (pyStrip identifier)).head? = some '@' <;>
  by_cases hn : (urlNetlocPath (pyLower (pyStrip identifier))).1 = [] <;>
  by_cases hp :
    pyStripChar '/' (urlNetlocPath (pyLower (pyStrip identifier))).2 = [] <;>
  by_cases ha :
    '@' ∈ pyStripChar '/' (urlNetlocPath (pyLower (pyStrip identifier))).2 <;>
  simp [expandIdentifier, h, hh, hn, hp, ha]

theorem uc_loop_none (s : Store) (identifier : Str) :
    (expandIdentifier identifier).find?
      (fun t => "UC".data.isPrefixOf t && (lookup s t).isSome) = none := by
  rw [List.find?_eq_none]
  intro t ht
  simp [expand_no_UC ht]

theorem resolveWithKey_eq_scan (s : Store) (identifier : Str) (hid : identifier ≠ []) :
    resolveWithKey s identifier =
      s.find? (fun e => tokensIntersect e.2.searchTokens (expandIdentifier identifier)) := by
  simp only [resolveWithKey, if_neg hid, uc_loop_none]

theorem scan_none_of_resolve_none {s : Store} {identifier : Str}
    (h : resolve s identifier = none) (hid : identifier ≠ []) :
    s.find? (fun e => tokensIntersect e.2.searchTokens (expandIdentifier identifier)) = none := by
  unfold resolve at h
  rw [resolveWithKey_eq_scan s identifier hid] at h
  exact Option.map_eq_none'.mp h

/-! ## Helper lemmas: search tokens -/

theorem searchTokens_foldl_mono :
    ∀ (vs : List (Option Str)) (acc : List Str) (x : Str), x ∈ acc →
      x ∈ vs.foldl searchTokenStep acc := by
  intro vs
  induction vs with
  | nil => intro acc x hx; simpa using hx
  | cons v rest ih =>
    intro acc x hx
    simp only [List.foldl_cons]
    apply ih
    cases v with
    | none => exact hx
    | some s =>
      by_cases hs0 : s = []
      · simpa [searchTokenStep, hs0] using hx
      · by_cases hst : pyLower (pyStrip s) = []
        · simpa [searchTokenStep, hs0, hst] using hx
        · have hrw : searchTokenStep acc (some s) =
              acc ++ [pyLower (pyStrip s), pyLStripAt (pyLower (pyStrip s))] := by
            simp [searchTokenStep, hs0, hst]
          rw [hrw]
          exact List.mem_append_left _ hx

theorem searchTokens_foldl_mem :
    ∀ (vs : List (Option Str)) (acc : List Str) (s : Str),
      some s ∈ vs → s ≠ [] → pyStrip s ≠ [] →
      pyLower (pyStrip s) ∈ vs.foldl searchTokenStep acc := by
  intro vs
  induction vs with
  | nil => intro acc s hs; simp at hs
  | cons v rest ih =>
    intro acc s hs hne hstrip
    simp only [List.foldl_cons]
    rcases List.mem_cons.mp hs with h | h
    · apply searchTokens_foldl_mono
      have hst : pyLower (pyStrip s) ≠ [] := by
        simpa [pyLower] using hstrip
      have hrw : searchTokenStep acc v =
          acc ++ [pyLower (pyStrip s), pyLStripAt (pyLower (pyStrip s))] := by
        rw [← h]
        simp [searchTokenStep, hne, hst]
      rw [hrw]
      simp
    · exact ih _ s h hne hstrip

theorem mem_searchTokens_of_alias {r : ChannelRecord} {a : Str}
    (ha : a ∈ r.aliases) (hs : pyStrip a ≠ []) :
    pyLower (pyStrip a) ∈ r.searchTokens := by
  unfold ChannelRecord.searchTokens
  apply searchTokens_foldl_mem
  · apply List.mem_append_right
    exact List.mem_map.mpr ⟨a, ha, rfl⟩
  · exact ne_nil_of_pyStrip_ne_nil hs
  · exact hs

theorem channel_id_mem_searchTokens (r : ChannelRecord) :
    pyLower r.channel_id ∈ r.searchTokens := by
  unfold ChannelRecord.searchTokens
  exact searchTokens_foldl_mono _ _ _ (by simp)

theorem tokensIntersect_of_mem {a b : List Str} {t : Str}
    (hta : t ∈ a) (htb : t ∈ b) : tokensIntersect a b = true := by
  unfold tokensIntersect
  rw [List.any_eq_true]
  exact ⟨t, hta, List.elem_iff.mpr htb⟩

/-! ## Claim theorems -/

/-- C1: the claimed direct-hit guarantee fails on the code.  `_expand_identifier`
lowercases every token before `resolve` tests `token.startswith("UC")`, so the
primary-key shortcut never fires — even for the exact canonical ID string
`"UCabc"` the direct-hit loop finds nothing — and the alias scan then returns
the earlier-inserted record that merely carries `"UCabc"` as an alias, shadowing
the record stored under the key `"UCabc"`. -/
theorem resolve_canonical_id_shadowed :
    (expandIdentifier "UCabc".data).find?
      (fun t => "UC".data.isPrefixOf t && (lookup storeC1 t).isSome) = none ∧
    lookup storeC1 "UCabc".data = some recCanon ∧
    resolve storeC1 "UCabc".data = some recAlias ∧
    recAlias ≠ recCanon := by
  refine ⟨by decide, by decide, by decide, by decide⟩

/-- C2: the claimed key-uniqueness invariant fails on the code.  Starting from
the store reached by `find_or_create_by_identifier("@foo")`, a refresh whose
fetch payload reveals the real ID `"UCreal"` mutates the resolved record in
place and `upsert`s it under the new key, leaving two entries: the stale one
under `"synthetic::@foo"` (whose key no longer equals its record's
`channel_id`) and the new one under `"UCreal"` — two entries now share the
`channel_id` `"UCreal"`. -/
theorem refresh_promotion_leaves_two_entries :
    refreshC2.store.map (fun e => (e.1, e.2.channel_id)) =
      [("synthetic::@foo".data, "UCreal".data), ("UCreal".data, "UCreal".data)] ∧
    ¬ ((∀ e ∈ refreshC2.store, e.1 = e.2.channel_id) ∧
        (refreshC2.store.map (fun e => e.2.channel_id)).Nodup) := by
  refine ⟨by decide, by decide⟩

/-- C3: whenever the external fetch fails — the call raises `HttpError`, it
returns an empty `items` list, or the record has neither a `UC`-prefixed
`channel_id` nor a handle to query by — `refresh` returns the
resolved-or-created record itself (hence every field and `updated_at`
unchanged) and leaves the store as the resolve-or-create step left it; the
model is total, so no fetch failure escapes the service boundary. -/
theorem refresh_fetch_failure_unchanged
    (store : Store) (identifier : Str) (force : Bool) (outcome : CallOutcome)
    (now ttl : Nat)
    (hfail : outcome = .httpError ∨ outcome = .ok [] ∨
      (("UC".data.isPrefixOf
          (resolveOrCreate store identifier now).1.2.channel_id) = false ∧
        strTruthy (resolveOrCreate store identifier now).1.2.handle = false)) :
    (refresh store identifier force outcome now ttl).record =
      (resolveOrCreate store identifier now).1.2 ∧
    (refresh store identifier force outcome now ttl).store =
      (resolveOrCreate store identifier now).2 := by
  have hnone : (fetchChannelPayload
      (resolveOrCreate store identifier now).1.2 outcome).1 = none := by
    unfold fetchChannelPayload
    rcases hfail with h | h | h
    · subst h
      split <;> rfl
    · subst h
      split <;> rfl
    · rw [if_neg (by simp [h.1, h.2])]
  simp only [refresh]
  split
  · exact ⟨rfl, rfl⟩
  · rw [hnone]
    exact ⟨rfl, rfl⟩

/-- Witness for C3 at a concrete input: an erroring fetch on a fresh
identifier leaves the created record and store untouched. -/
theorem refresh_fetch_failure_unchanged_witness :
    (refresh [] "@x".data true .httpError 3 10).record =
      (resolveOrCreate [] "@x".data 3).1.2 ∧
    (refresh [] "@x".data true .httpError 3 10).store =
      (resolveOrCreate [] "@x".data 3).2 :=
  refresh_fetch_failure_unchanged [] "@x".data true .httpError 3 10 (Or.inl rfl)

/-- C4: `_apply_payload` never touches the manual fields, so after any
`refresh` call — any force flag, any fetch outcome — the returned record's
`owner` and `notes` equal those of the record the resolve-or-create step
produced. -/
theorem refresh_preserves_owner_notes
    (store : Store) (identifier : Str) (force : Bool) (outcome : CallOutcome)
    (now ttl : Nat) :
    (refresh store identifier force outcome now ttl).record.owner =
      (resolveOrCreate store identifier now).1.2.owner ∧
    (refresh store identifier force outcome now ttl).record.notes =
      (resolveOrCreate store identifier now).1.2.notes := by
  simp only [refresh]
  split
  · exact ⟨rfl, rfl⟩
  · cases hfp : (fetchChannelPayload
        (resolveOrCreate store identifier now).1.2 outcome).1 with
    | none => exact ⟨rfl, rfl⟩
    | some p => exact ⟨rfl, rfl⟩

/-- C8: `normalize_handle` returns `None` on `None`/blank input, otherwise
one `@` prefixed to the `@`-stripped trimmed input, and it is idempotent. -/
theorem normalize_handle_spec :
    normalize_handle none = none ∧
    (∀ s : Str, pyStrip s = [] → normalize_handle (some s) = none) ∧
    (∀ s : Str, pyStrip s ≠ [] →
      normalize_handle (some s) = some ('@' :: pyLStripAt (pyStrip s))) ∧
    (∀ v : Option Str, normalize_handle (normalize_handle v) = normalize_handle v) :=
  ⟨rfl, fun _ h => normalize_handle_blank h, fun _ h => normalize_handle_shape h,
    normalize_handle_idem⟩

/-- Witness for C8 at concrete inputs. -/
theorem normalize_handle_spec_witness :
    normalize_handle (normalize_handle (some " @@Foo ".data)) =
      normalize_handle (some " @@Foo ".data) ∧
    normalize_handle (some "  ".data) = none ∧
    normalize_handle (some " @@Foo ".data) = some "@Foo".data := by
  refine ⟨normalize_handle_spec.2.2.2 _, normalize_handle_spec.2.1 _ (by decide), ?_⟩
  rw [normalize_handle_spec.2.2.1 _ (by decide)]
  decide

/-- C6: `update_partial` returns `None` and leaves the store untouched for an
unknown key; for a known key only the allow-listed fields `owner`, `notes`,
`aliases` (plus the `updated_at` stamp) can change — a supplied `title` is
ignored, an allow-listed field supplied as `None` is a per-field no-op, and
other supplied fields still take effect. -/
theorem update_partial_allowlist
    (store : Store) (channel_id : Str) (ch : Changes) (now : Nat) :
    (lookup store channel_id = none →
      update_partial store channel_id ch now = (none, store, false)) ∧
    (∀ r, lookup store channel_id = some r →
      ∃ r', ( update_partial store channel_id ch now).1 = some r' ∧
        r'.channel_id = r.channel_id ∧
        r'.handle = r.handle ∧
        r'.custom_url = r.custom_url ∧
        r'.title = r.title ∧
        r'.description = r.description ∧
        r'.tags = r.tags ∧
        r'.metadata = r.metadata ∧
        r'.file_search_store_name = r.file_search_store_name ∧
        r'.uploads_playlist_id = r.uploads_playlist_id ∧
        r'.created_at = r.created_at ∧
        (ch.owner = none → r'.owner = r.owner) ∧
        (∀ v, ch.owner = some v → r'.owner = some v) ∧
        (ch.notes = none → r'.notes = r.notes) ∧
        (∀ v, ch.notes = some v → r'.notes = some v) ∧
        (ch.aliases = none → r'.aliases = r.aliases)) := by
  constructor
  · intro h
    simp [ update_partial, h]
  · intro r hr
    rcases ch with ⟨ow, no, al, ti, bi⟩
    cases ow <;> cases no <;> cases al <;>
      simp [ update_partial, hr] <;>
      exact ⟨_, rfl, by simp⟩

/-- Witness for C6 at the repo's own test scenario: `title` stays
`"Original"` while `owner` is updated. -/
theorem update_partial_allowlist_witness :
    ∃ r', ( update_partial storeW "UC789".data chW 7).1 = some r' ∧
      r'.title = some "Original".data ∧ r'.owner = some "Owner Name".data := by
  obtain ⟨r', h1, _, _, _, ht, _, _, _, _, _, _, _, hows, _, _, _⟩ :=
    ( update_partial_allowlist storeW "UC789".data chW 7).2 recW (by decide)
  exact ⟨r', h1, by rw [ht]; decide, hows _ rfl⟩

/-- C7: `dedupe_aliases` keeps only trimmed, non-blank entries, is duplicate
free under the lowercased-trimmed key, is an in-order selection of the
trimmed survivors, covers every non-blank input, keeps the casing of the
first occurrence of each key, and consequently every `_merge_aliases` result
has no two entries equal case-insensitively after trimming. -/
theorem dedupe_aliases_spec
    (l : List (Option Str)) (r : ChannelRecord) (als : List (Option Str))
    (b : Option Str) :
    (∀ a ∈ dedupe_aliases l, a = pyStrip a ∧ a ≠ []) ∧
    (dedupe_aliases l).Pairwise
      (fun a c => pyLower (pyStrip a) ≠ pyLower (pyStrip c)) ∧
    (dedupe_aliases l).Sublist (l.filterMap (fun o => o.map pyStrip)) ∧
    (∀ x, some x ∈ l → pyStrip x ≠ [] →
      ∃ a ∈ dedupe_aliases l, pyLower a = pyLower (pyStrip x)) ∧
    (∀ l1 x l2, l = l1 ++ some x :: l2 → pyStrip x ≠ [] →
      (∀ y, some y ∈ l1 → pyLower (pyStrip y) ≠ pyLower (pyStrip x)) →
      pyStrip x ∈ dedupe_aliases l) ∧
    (mergeAliases r als b).Pairwise
      (fun a c => pyLower (pyStrip a) ≠ pyLower (pyStrip c)) := by
  have hpair : ∀ m : List (Option Str),
      (dedupe_aliases m).Pairwise
        (fun a c => pyLower (pyStrip a) ≠ pyLower (pyStrip c)) := by
    intro m
    have h1 := (dedupeGo_pairwise m []).1
    refine List.Pairwise.imp_of_mem ?_ h1
    intro a c ha hc hne
    have h2 := (dedupeGo_trimmed m [] a ha).1
    have h3 := (dedupeGo_trimmed m [] c hc).1
    rw [← h2, ← h3]
    exact hne
  refine ⟨fun a ha => dedupeGo_trimmed l [] a ha, hpair l, dedupeGo_sublist l [],
    fun x hx hs => dedupeGo_complete l [] x hx hs (by simp),
    fun l1 x l2 hl hs hfirst => ?_, hpair _⟩
  rw [hl]
  exact dedupeGo_first_seen l1 x l2 [] hs (by simp) hfirst

/-- Witness for C7 at the spec's own examples. -/
theorem dedupe_aliases_spec_witness :
    (∃ a ∈ dedupe_aliases [some "Foo".data, some "foo".data, some " FOO ".data],
      pyLower a = pyLower (pyStrip " FOO ".data)) ∧
    (mergeAliases recC7 alsC7 none).Pairwise
      (fun a c => pyLower (pyStrip a) ≠ pyLower (pyStrip c)) :=
  ⟨(dedupe_aliases_spec [some "Foo".data, some "foo".data, some " FOO ".data]
      recC7 alsC7 none).2.2.2.1 " FOO ".data (by decide) (by decide),
    (dedupe_aliases_spec [] recC7 alsC7 none).2.2.2.2.2⟩

/-- C5 counterexample: two `refresh(id, force=False)` calls within one TTL
window where the second call does NOT return the cached record.  The record's
only token matching `"foo"` is its title; the first refresh overwrites the
title with the fetched `"Bar"`, so the second call resolves nothing, creates
a fresh `synthetic::foo` placeholder and returns it — a different record with
`last_refreshed_at = None`, not the cached record with its unchanged
`last_refreshed_at`. -/
theorem refresh_second_call_not_cached :
    refreshC5a.record.metadata.last_refreshed_at = some 100 ∧
    refreshC5a.fetched = true ∧
    (150 : Nat) < 100 + 720 ∧
    refreshC5b.record ≠ refreshC5a.record ∧
    refreshC5b.record.channel_id = "synthetic::foo".data ∧
    refreshC5b.record.metadata.last_refreshed_at = none := by
  refine ⟨by decide, by decide, by decide, by decide, by decide, by decide⟩

/-- C5 amended: (a) if `force` is false, the resolved record's
`last_refreshed_at` is set and `now` is strictly before it plus the TTL,
`refresh` returns the record and store unchanged and performs no external
fetch; (b) consequently, a second non-forced call within the TTL window of
the record the first call returned performs no fetch and returns that record
with its `last_refreshed_at` unchanged — provided the identifier still
resolves to that record (the first call can overwrite the only matching
token, see the counterexample). -/
theorem refresh_within_ttl_cached
    (store : Store) (identifier : Str) (o1 o2 : CallOutcome)
    (now1 now2 ttl : Nat) :
    (∀ t, (resolveOrCreate store identifier now1).1.2.metadata.last_refreshed_at
        = some t →
      now1 < t + ttl →
      refresh store identifier false o1 now1 ttl =
        ⟨(resolveOrCreate store identifier now1).1.2,
          (resolveOrCreate store identifier now1).2, false⟩) ∧
    (∀ t1,
      (refresh store identifier false o1 now1 ttl).record.metadata.last_refreshed_at
        = some t1 →
      (resolveOrCreate (refresh store identifier false o1 now1 ttl).store
          identifier now2).1.2 =
        (refresh store identifier false o1 now1 ttl).record →
      now2 < t1 + ttl →
      (refresh (refresh store identifier false o1 now1 ttl).store identifier
          false o2 now2 ttl).record =
        (refresh store identifier false o1 now1 ttl).record ∧
      (refresh (refresh store identifier false o1 now1 ttl).store identifier
          false o2 now2 ttl).fetched = false ∧
      (refresh (refresh store identifier false o1 now1 ttl).store identifier
          false o2 now2 ttl).record.metadata.last_refreshed_at = some t1) := by
  have key : ∀ (st : Store) (o : CallOutcome) (now : Nat) (t : Nat),
      (resolveOrCreate st identifier now).1.2.metadata.last_refreshed_at = some t →
      now < t + ttl →
      refresh st identifier false o now ttl =
        ⟨(resolveOrCreate st identifier now).1.2,
          (resolveOrCreate st identifier now).2, false⟩ := by
    intro st o now t hlast hlt
    have hstale : isStale (resolveOrCreate st identifier now).1.2 now ttl = false := by
      unfold isStale
      rw [hlast]
      simp only [decide_eq_false_iff_not]
      omega
    simp only [refresh]
    rw [if_pos (by simp [hstale])]
  refine ⟨fun t hlast hlt => key store o1 now1 t hlast hlt, ?_⟩
  intro t1 h1 hres hlt
  have h2 := key (refresh store identifier false o1 now1 ttl).store o2 now2 t1
    (by rw [hres]; exact h1) hlt
  rw [h2]
  exact ⟨hres, rfl, by rw [hres]; exact h1⟩

/-- Witness for C5 amended: a record refreshed at time 100 with TTL 720 is
served from cache at times 150 and 200 with no fetch. -/
theorem refresh_within_ttl_cached_witness :
    refresh storeFresh "UCf".data false .httpError 150 720 =
      ⟨(resolveOrCreate storeFresh "UCf".data 150).1.2,
        (resolveOrCreate storeFresh "UCf".data 150).2, false⟩ ∧
    (refresh (refresh storeFresh "UCf".data false .httpError 150 720).store
        "UCf".data false .httpError 200 720).fetched = false :=
  ⟨(refresh_within_ttl_cached storeFresh "UCf".data .httpError .httpError
      150 200 720).1 100 (by decide) (by decide),
    ((refresh_within_ttl_cached storeFresh "UCf".data .httpError .httpError
      150 200 720).2 100 (by decide) (by decide) (by decide)).2.1⟩

/-! ## Helper lemmas: record creation and round-trip resolution -/

theorem createRecord_channel_id {store : Store} {identifier : Str} {now : Nat}
    (hnuc : ("UC".data.isPrefixOf (pyStrip identifier)) = false) :
    (createRecord store identifier now).1.channel_id =
      "synthetic::".data ++ pyLower (pyStrip identifier) := by
  have hded : deduceChannelId identifier =
      "synthetic::".data ++ pyLower (pyStrip identifier) := by
    unfold deduceChannelId
    rw [if_neg (by simp [hnuc])]
  simp only [createRecord, hded]
  split
  · rw [if_neg (by simp)]
  · rw [if_neg (by simp)]

theorem createRecord_store (store : Store) (identifier : Str) (now : Nat) :
    (createRecord store identifier now).2 =
      insertRecord store (createRecord store identifier now).1.channel_id
        (createRecord store identifier now).1 := rfl

theorem createRecord_alias_mem {store : Store} {identifier : Str} {now : Nat}
    (hne : pyStrip identifier ≠ []) :
    pyStrip identifier ∈ (createRecord store identifier now).1.aliases := by
  simp only [createRecord, if_pos hne]
  have h2 : pyStrip (pyStrip identifier) ≠ [] := by
    rw [pyStrip_idem]
    exact hne
  unfold mergeAliases
  have := dedupeGo_first_seen [] (pyStrip identifier)
    ([extractHandle identifier] ++
      [none,
        (if strTruthy (extractHandle identifier) then
          normalize_handle (extractHandle identifier) else none),
        some (if deduceChannelId identifier = [] then identifier
          else deduceChannelId identifier),
        none]) [] h2 (by simp) (by intro y hy; simp at hy)
  rw [pyStrip_idem] at this
  simpa [dedupe_aliases] using this

theorem resolve_insertRecord_match {store : Store} {identifier k : Str}
    {v : ChannelRecord}
    (hid : identifier ≠ [])
    (hnone : resolve store identifier = none)
    (hmem : pyStrip identifier ∈ v.aliases)
    (hne : pyStrip identifier ≠ []) :
    resolve (insertRecord store k v) identifier = some v := by
  unfold resolve
  rw [resolveWithKey_eq_scan _ _ hid]
  have hall : ∀ e ∈ store,
      (tokensIntersect e.2.searchTokens (expandIdentifier identifier)) = false := by
    have hscan := scan_none_of_resolve_none hnone hid
    intro e he
    have := List.find?_eq_none.mp hscan e he
    simpa using this
  have hp : tokensIntersect v.searchTokens (expandIdentifier identifier) = true := by
    apply tokensIntersect_of_mem (t := pyLower (pyStrip identifier))
    · have h2 : pyStrip (pyStrip identifier) ≠ [] := by
        rw [pyStrip_idem]
        exact hne
      have := mem_searchTokens_of_alias hmem h2
      rwa [pyStrip_idem] at this
    · exact cleaned_mem_expand (by simpa [pyLower] using hne)
  rw [find?_insertRecord hall hp]
  rfl

/-- C9 counterexample: for the identifier `" A "` (whitespace-padded),
`find_or_create_by_identifier` keys the placeholder by the lowercased
*trimmed* identifier (`"synthetic::a"`), not by `"synthetic::"` followed by
the lowercased identifier as the claim's formula states. -/
theorem find_or_create_id_not_untrimmed :
    (find_or_create_by_identifier [] " A ".data 0).1.channel_id =
      "synthetic::a".data ∧
    "synthetic::a".data ≠ "synthetic::".data ++ pyLower " A ".data := by
  refine ⟨by decide, by decide⟩

/-- C9 amended: for an identifier with no existing match whose trimmed form
is non-empty and does not start with `UC`, `find_or_create_by_identifier`
creates and persists a record whose `channel_id` is `"synthetic::"` followed
by the lowercased *trimmed* identifier, and after re-loading the persisted
record list into a fresh store, resolving the same identifier returns a
record with that same `channel_id`. -/
theorem find_or_create_synthetic_roundtrip
    (store : Store) (identifier : Str) (now : Nat)
    (hwf : WellFormed store)
    (hnone : resolve store identifier = none)
    (hne : pyStrip identifier ≠ [])
    (hnuc : ("UC".data.isPrefixOf (pyStrip identifier)) = false) :
    (find_or_create_by_identifier store identifier now).1.channel_id =
      "synthetic::".data ++ pyLower (pyStrip identifier) ∧
    ∃ r', resolve (loadStore (persistList
        (find_or_create_by_identifier store identifier now).2)) identifier =
          some r' ∧
      r'.channel_id =
        (find_or_create_by_identifier store identifier now).1.channel_id := by
  have hid : identifier ≠ [] := ne_nil_of_pyStrip_ne_nil hne
  have hrwk : resolveWithKey store identifier = none := Option.map_eq_none'.mp hnone
  have hfoc : find_or_create_by_identifier store identifier now =
      ((createRecord store identifier now).1, (createRecord store identifier now).2) := by
    unfold find_or_create_by_identifier resolveOrCreate
    rw [hrwk]
  rw [hfoc]
  constructor
  · exact createRecord_channel_id hnuc
  · have hwf' : WellFormed (createRecord store identifier now).2 := by
      rw [createRecord_store]
      exact wellFormed_insertRecord hwf
    rw [loadStore_persistList hwf', createRecord_store]
    exact ⟨(createRecord store identifier now).1,
      resolve_insertRecord_match hid hnone (createRecord_alias_mem hne) hne, rfl⟩

/-- Witness for C9 amended, on the empty store with the spec's example
identifier. -/
theorem find_or_create_synthetic_roundtrip_witness :
    (find_or_create_by_identifier [] "Serhii Sternenko".data 0).1.channel_id =
      "synthetic::".data ++ pyLower (pyStrip "Serhii Sternenko".data) ∧
    ∃ r', resolve (loadStore (persistList
        (find_or_create_by_identifier [] "Serhii Sternenko".data 0).2))
          "Serhii Sternenko".data = some r' ∧
      r'.channel_id =
        (find_or_create_by_identifier [] "Serhii Sternenko".data 0).1.channel_id :=
  find_or_create_synthetic_roundtrip [] "Serhii Sternenko".data 0
    (by constructor <;> decide) (by decide) (by decide) (by decide)

/-! ## Helper lemmas: resolution and the manager -/

theorem lookup_channel_id_of_resolve {store : Store} {identifier : Str}
    {r : ChannelRecord}
    (hwf : WellFormed store) (h : resolve store identifier = some r) :
    lookup store r.channel_id = some r := by
  have hid : identifier ≠ [] := by
    intro he
    rw [he] at h
    simp [resolve, resolveWithKey] at h
  unfold resolve at h
  rw [resolveWithKey_eq_scan _ _ hid] at h
  cases hk : store.find?
      (fun e => tokensIntersect e.2.searchTokens (expandIdentifier identifier)) with
  | none => rw [hk] at h; cases h
  | some kr =>
    rw [hk] at h
    have hmem : kr ∈ store := List.mem_of_find?_eq_some hk
    have hkey : kr.1 = kr.2.channel_id := hwf.1 kr hmem
    have : kr.2 = r := by
      simpa using h
    subst this
    rw [← hkey]
    exact lookup_eq_some_of_mem hwf (by rwa [show (kr.1, kr.2) = kr from rfl])

theorem dedupe_aliases_mem_of (l : List (Option Str)) (x : Str)
    (hx : some x ∈ l) (hs : pyStrip x ≠ []) :
    ∃ a ∈ dedupe_aliases l, pyLower a = pyLower (pyStrip x) :=
  dedupeGo_complete l [] x hx hs (by simp)

/-- C10: `update_partial` with any non-`None` `aliases` value — the empty
list included — rewrites the record's aliases through `_merge_aliases`,
counts as a change, stamps `updated_at`, and persists; since the manager's
`update_manual_fields` always passes an aliases list (defaulting to empty),
calling it with no owner, no notes and no aliases still mutates and persists
the record, and the merge injects the record's `channel_id` and title into
its alias list (up to trimming and case). -/
theorem update_partial_aliases_always_merge
    (store : Store) (channel_id : Str) (ch : Changes) (now : Nat) :
    (∀ r al, lookup store channel_id = some r → ch.aliases = some al →
      ∃ r', ( update_partial store channel_id ch now).1 = some r' ∧
        r'.aliases = mergeAliases r (al.map some) ch.base_identifier ∧
        r'.updated_at = now ∧
        ( update_partial store channel_id ch now).2.2 = true ∧
        ( update_partial store channel_id ch now).2.1 =
          insertRecord store channel_id r') ∧
    (∀ (identifier : Str) (r : ChannelRecord),
      WellFormed store → resolve store identifier = some r →
      ∃ r', (update_manual_fields store identifier none none none now).1 = some r' ∧
        (update_manual_fields store identifier none none none now).2.2 = true ∧
        r'.updated_at = now ∧
        r'.aliases = mergeAliases r [] (some identifier) ∧
        (pyStrip r.channel_id ≠ [] →
          ∃ a ∈ r'.aliases, pyLower a = pyLower (pyStrip r.channel_id)) ∧
        (∀ t, r.title = some t → pyStrip t ≠ [] →
          ∃ a ∈ r'.aliases, pyLower a = pyLower (pyStrip t))) := by
  constructor
  · intro r al hr hal
    rcases ch with ⟨ow, no, al0, ti, bi⟩
    simp only at hal
    subst hal
    cases ow <;> cases no <;>
      simp [ update_partial, hr] <;>
      exact ⟨rfl, rfl, rfl⟩
  · intro identifier r hwf hres
    have hlook := lookup_channel_id_of_resolve hwf hres
    have hmerge : ∀ x, some x ∈ (r.aliases.map some ++ [] ++
        [some identifier,
          (if strTruthy r.handle then normalize_handle r.handle else none),
          some r.channel_id, r.title]) →
        pyStrip x ≠ [] →
        ∃ a ∈ mergeAliases r [] (some identifier),
          pyLower a = pyLower (pyStrip x) := by
      intro x hx hs
      unfold mergeAliases
      exact dedupe_aliases_mem_of _ x hx hs
    refine ⟨{ r with
                aliases := mergeAliases r [] (some identifier)
                updated_at := now }, ?_, ?_, rfl, rfl, ?_, ?_⟩
    · simp [update_manual_fields, hres, update_partial, hlook, dedupe_aliases,
        dedupeGo, mergeAliases]
    · simp [update_manual_fields, hres, update_partial, hlook, dedupe_aliases,
        dedupeGo]
    · intro hcs
      exact hmerge r.channel_id (by simp) hcs
    · intro t ht hts
      exact hmerge t (by simp [ht]) hts

/-- Witness for C10: calling `update_manual_fields` with no owner, no notes
and no aliases on an existing record still persists a change and injects the
channel ID into the alias list. -/
theorem update_partial_aliases_always_merge_witness :
    ∃ r', (update_manual_fields storeFresh "UCf".data none none none 300).1 =
        some r' ∧
      (update_manual_fields storeFresh "UCf".data none none none 300).2.2 = true ∧
      r'.updated_at = 300 ∧
      ∃ a ∈ r'.aliases, pyLower a = pyLower (pyStrip recFresh.channel_id) := by
  obtain ⟨r', h1, h2, h3, _, h5, _⟩ :=
    ( update_partial_aliases_always_merge storeFresh "UCf".data {} 300).2
      "UCf".data recFresh (by constructor <;> decide) (by decide)
  exact ⟨r', h1, h2, h3, h5 (by decide)⟩

end Simargl
